import Mathlib

/-!
Verification development for the multi-credential request dispatcher of
ScholarFlow.  The definitions below are a shallow embedding of the
TypeScript classes `ApiKeyManager` (credential pool with rotation) and
`GeminiService.executeWithRetry` (retry/rotation dispatch loop).

Modelling conventions:
* the mutable `this` object becomes an explicit `ApiKeyManager` value that
  every operation takes and returns;
* `new Date().toISOString().split('T')[0]` becomes an explicit `today`
  parameter, and `Date.now()` an explicit `now` parameter, threaded through
  the operations that read the clock;
* JavaScript array index assignment `keys[i].f = v` becomes `updateAt`;
* `string.substring(0, n)` becomes `strTruncate` (take of the character
  list); `string.includes(p)` becomes `strContainsSeq`;
* the listener list of `subscribe`/`notify` holds callback identities,
  modelled as natural numbers: two equal numbers stand for the same
  (reference-identical) callback function value;
* object reference semantics, which only matters for the shallow-copy
  snapshot claim, is modelled separately by `RefPool`, a heap of credential
  records addressed by references.
-/

namespace ScholarFlow

/-- The four credential states of `ApiKeyStatus.status` in
`components/ApiKeyStatus.tsx`: `'available' | 'active' | 'exhausted' | 'error'`. -/
inductive KeyState where
  | available
  | active
  | exhausted
  | error
deriving DecidableEq, Repr

/-- One entry of the pool, from `export interface ApiKeyStatus`. -/
structure ApiKeyStatus where
  key : String
  status : KeyState
  requestCount : Nat
  lastResetDate : String
  lastUsed : Option Nat := none
  errorMessage : Option String := none
deriving DecidableEq, Repr

/-- In-place update of index `i` of a list, as JavaScript
`keys[i].field = v` mutation; out-of-range indices leave the list
unchanged. -/
def updateAt {α : Type} : Nat → (α → α) → List α → List α
  | _, _, [] => []
  | 0, f, a :: as => f a :: as
  | i + 1, f, a :: as => a :: updateAt i f as

/-- The status stored at index `i`, if in range. -/
def statusAt (keys : List ApiKeyStatus) (i : Nat) : Option KeyState :=
  (keys[i]?).map (·.status)

/-- The pool state of `class ApiKeyManager`: the `keys` array and the
rotation cursor `currentIndex`. -/
structure ApiKeyManager where
  keys : List ApiKeyStatus
  currentIndex : Nat
deriving DecidableEq, Repr

/-- The constructor of `ApiKeyManager`: every credential starts
`available` with zero requests and today's reset date. -/
def mkManager (today : String) (apiKeys : List String) : ApiKeyManager :=
  { keys := apiKeys.map (fun k =>
      { key := k.trim
        status := KeyState.available
        requestCount := 0
        lastResetDate := today })
    currentIndex := 0 }

/-- The body of `checkDailyReset` for one entry: an entry whose
`lastResetDate` is not today becomes `available` again with
`requestCount` 0 and its `errorMessage` cleared. -/
def resetKey (today : String) (k : ApiKeyStatus) : ApiKeyStatus :=
  if k.lastResetDate ≠ today then
    { k with status := KeyState.available
             requestCount := 0
             lastResetDate := today
             errorMessage := none }
  else k

/-- Method `private checkDailyReset()` of `ApiKeyManager`. -/
def checkDailyReset (today : String) (m : ApiKeyManager) : ApiKeyManager :=
  { m with keys := m.keys.map (resetKey today) }

/-- Method `getCurrentKey()`: lazy daily reset, then the secret at the cursor.
Returns the updated state alongside the value. -/
def getCurrentKey (today : String) (m : ApiKeyManager) : String × ApiKeyManager :=
  let m' := checkDailyReset today m
  (((m'.keys[m'.currentIndex]?).map (·.key)).getD "", m')

/-- Method `getKeyStatuses()`: lazy daily reset, then the list of entries
(the spread copy `[...this.keys]` returns the same entry values). -/
def getKeyStatuses (today : String) (m : ApiKeyManager) : List ApiKeyStatus × ApiKeyManager :=
  let m' := checkDailyReset today m
  (m'.keys, m')

/-- Method `markAsActive()`: cursor entry becomes `active` and records the time. -/
def markAsActive (now : Nat) (m : ApiKeyManager) : ApiKeyManager :=
  let keys := updateAt m.currentIndex
    (fun k => { k with status := KeyState.active, lastUsed := some now }) m.keys
  { m with keys := keys }

/-- Method `markSuccess()`: cursor entry back to `available`, request counted. -/
def markSuccess (now : Nat) (m : ApiKeyManager) : ApiKeyManager :=
  let keys := updateAt m.currentIndex
    (fun k => { k with status := KeyState.available
                       requestCount := k.requestCount + 1
                       lastUsed := some now }) m.keys
  { m with keys := keys }

/-- The fixed diagnostic stored by `markExhaustedAndRotate`. -/
def exhaustedMsg : String := "今日流量已用完"

/-- The `while (attempts < this.keys.length)` search loop of
`markExhaustedAndRotate`, fuel-indexed by the remaining attempts; the
cursor is advanced `(idx + 1) % length` on every iteration, exactly as the
source mutates `this.currentIndex`, and the loop stops at the first
`available` entry.  Returns (found, final cursor). -/
def scanLoop (keys : List ApiKeyStatus) : Nat → Nat → Bool × Nat
  | idx, 0 => (false, idx)
  | idx, fuel + 1 =>
    let idx2 := (idx + 1) % keys.length
    if statusAt keys idx2 = some KeyState.available then (true, idx2)
    else scanLoop keys idx2 fuel

/-- Method `markExhaustedAndRotate()`: mark the cursor entry `exhausted` with the
fixed diagnostic, then scan circularly (at most `keys.length` steps) for
the next `available` entry. -/
def markExhaustedAndRotate (m : ApiKeyManager) : Bool × ApiKeyManager :=
  let keys := updateAt m.currentIndex
    (fun k => { k with status := KeyState.exhausted
                       errorMessage := some exhaustedMsg }) m.keys
  let r := scanLoop keys m.currentIndex keys.length
  (r.1, { m with keys := keys, currentIndex := r.2 })

/-- Method `markError(error)`: cursor entry becomes `error`, the diagnostic is
stored verbatim. -/
def markError (err : String) (m : ApiKeyManager) : ApiKeyManager :=
  let keys := updateAt m.currentIndex
    (fun k => { k with status := KeyState.error
                       errorMessage := some err }) m.keys
  { m with keys := keys }

/-- Method `hasAvailableKey()`: lazy daily reset, then `some` over the pool. -/
def hasAvailableKey (today : String) (m : ApiKeyManager) : Bool × ApiKeyManager :=
  let m' := checkDailyReset today m
  (m'.keys.any (fun k => k.status == KeyState.available), m')

/-! ### Listener list (`subscribe` / `notify`)

Callbacks are identified by reference equality in the source
(`l !== listener`); a callback identity is modelled as a `Nat`. -/

/-- Method `subscribe(listener)` pushes the callback onto the listener array. -/
def subscribe (listeners : List Nat) (listener : Nat) : List Nat :=
  listeners ++ [listener]

/-- Invoking the handle returned by `subscribe`: the source filters the
current listener array by `l !== listener`. -/
def runUnsubscribe (listeners : List Nat) (listener : Nat) : List Nat :=
  listeners.filter (fun l => l != listener)

/-- Method `private notify()`: each registered listener receives the snapshot;
the result lists the deliveries (listener identity, delivered list). -/
def notifyDeliveries (listeners : List Nat) (keys : List ApiKeyStatus) :
    List (Nat × List ApiKeyStatus) :=
  listeners.map (fun l => (l, keys))

/-! ### The dispatcher (`GeminiService.executeWithRetry`) -/

/-- Predicate `leadsWith l p` holds when `p` is an initial segment of `l`. -/
def leadsWith [DecidableEq α] : List α → List α → Bool
  | _, [] => true
  | [], _ :: _ => false
  | a :: as, b :: bs => a == b && leadsWith as bs

/-- Predicate `containsSeq l p`: `p` occurs contiguously inside `l`. -/
def containsSeq [DecidableEq α] : List α → List α → Bool
  | [], pat => leadsWith ([] : List α) pat
  | a :: as, pat => leadsWith (a :: as) pat || containsSeq as pat

/-- JavaScript `errorMessage.includes(pat)`. -/
def strContainsSeq (s pat : String) : Bool :=
  containsSeq s.data pat.data

/-- JavaScript `s.substring(0, n)` (on characters). -/
def strTruncate (s : String) (n : Nat) : String :=
  ⟨s.data.take n⟩

/-- Outcome of one invocation of the unit of work (`operation`): a result,
or a raised error carrying the optional numeric `status` and the message
the dispatcher classifies. -/
inductive OpOutcome (T : Type) where
  | success (value : T)
  | failure (status : Option Nat) (message : String)

/-- The failures `executeWithRetry` can surface to its caller, one per
`throw` site. -/
inductive DispatchError where
  | allKeysExhausted (message : String)
  | notFoundError (message : String)
  | otherError (status : Option Nat) (message : String)
  | tooManyFailures
deriving DecidableEq, Repr

/-- Thrown when no key is available before an attempt. -/
def noKeysMsg : String := "所有 API 金鑰皆已耗盡。請明天再試或新增更多金鑰。"

/-- Thrown when `markExhaustedAndRotate` finds no replacement. -/
def rotationFailedMsg : String := "所有 API 金鑰皆已耗盡。"

/-- The fixed diagnostic `markError` receives on a 404. -/
def invalidKeyMsg : String := "API key 無效或 model 不存在"

/-- The user-facing message of the 404 throw. -/
def notFoundUserMsg (msg : String) : String :=
  "API 錯誤: 找不到請求的資源。請檢查 API key 是否有效。詳細: " ++ msg

/-- The rate-limit test of the catch block:
`status === 429 || msg.includes('429') || msg.includes('RESOURCE_EXHAUSTED')`. -/
def isRateLimitHit (status : Option Nat) (msg : String) : Bool :=
  status == some 429 || strContainsSeq msg "429" ||
    strContainsSeq msg "RESOURCE_EXHAUSTED"

/-- The not-found test of the catch block:
`status === 404 || msg.includes('404') || msg.includes('NOT_FOUND')`. -/
def isNotFoundHit (status : Option Nat) (msg : String) : Bool :=
  status == some 404 || strContainsSeq msg "404" ||
    strContainsSeq msg "NOT_FOUND"

/-- Method `executeWithRetry(operation, maxRetries)`.  Here `fuel` is the remaining
attempt budget (`maxRetries - attempts`); `calls` counts invocations of the
unit of work so far, and the unit of work may observe that count (so a
scripted operation can fail on selected attempts).  Returns the result or
dispatch failure, the final pool state, and the total invocation count.
The `await delay(2000)` backoff is a pure suspension with no state effect
and is elided. -/
def executeWithRetry {T : Type} (today : String) (now : Nat)
    (op : Nat → String → OpOutcome T) :
    Nat → Nat → ApiKeyManager → (Except DispatchError T × ApiKeyManager × Nat)
  | calls, 0, m => (Except.error DispatchError.tooManyFailures, m, calls)
  | calls, fuel + 1, m =>
    let a := hasAvailableKey today m
    if !a.1 then (Except.error (DispatchError.allKeysExhausted noKeysMsg), a.2, calls)
    else
      let m2 := markAsActive now a.2
      let g := getCurrentKey today m2
      match op calls g.1 with
      | OpOutcome.success v =>
        (Except.ok v, markSuccess now g.2, calls + 1)
      | OpOutcome.failure status msg =>
        if isRateLimitHit status msg then
          let r := markExhaustedAndRotate g.2
          if !r.1 then
            (Except.error (DispatchError.allKeysExhausted rotationFailedMsg), r.2, calls + 1)
          else
            executeWithRetry today now op (calls + 1) fuel r.2
        else if isNotFoundHit status msg then
          (Except.error (DispatchError.notFoundError (notFoundUserMsg msg)),
            markError invalidKeyMsg g.2, calls + 1)
        else
          (Except.error (DispatchError.otherError status msg),
            markError (strTruncate msg 50) g.2, calls + 1)

/-! ### Reference-semantics model of the snapshot copy

In the source, `keys` is an array of mutable objects and
`getKeyStatuses()` / `notify()` hand out `[...this.keys]`: a fresh array
whose slots hold the same object references.  To state what a caller can
reach through such a snapshot we model the objects explicitly: `heap` is
the store of credential records, addressed by `Nat` references, and the
pool keeps a list of references into it. -/

structure RefPool where
  heap : List ApiKeyStatus
  keyRefs : List Nat
  currentIndex : Nat
deriving DecidableEq, Repr

/-- The spread copy `[...this.keys]` as handed to external readers and to
every subscriber: a fresh array holding the same references. -/
def snapshotRefs (s : RefPool) : List Nat :=
  s.keyRefs

/-- A caller mutating the record behind reference `r`
(e.g. `snap[i].status = ...` in JavaScript). -/
def heapWrite (s : RefPool) (r : Nat) (v : ApiKeyStatus) : RefPool :=
  { s with heap := updateAt r (fun _ => v) s.heap }

/-- The pool's internal view of its credentials: each reference
dereferenced in the current heap. -/
def derefAll (s : RefPool) : List (Option ApiKeyStatus) :=
  s.keyRefs.map (fun r => s.heap[r]?)

/-! ### Concrete fixtures -/

/-- A fresh entry, as the constructor builds one. -/
def entry (k : String) (st : KeyState) : ApiKeyStatus :=
  { key := k, status := st, requestCount := 0, lastResetDate := "2026-01-01" }

/-- A two-credential pool, both `available`. -/
def pool2 : ApiKeyManager := mkManager "2026-01-01" ["k1", "k2"]

/-- A one-credential pool. -/
def pool1 : ApiKeyManager := mkManager "2026-01-01" ["k1"]

/-- A three-credential pool whose middle entry is already exhausted. -/
def pool3 : ApiKeyManager :=
  { keys := [entry "k1" KeyState.available, entry "k2" KeyState.exhausted,
             entry "k3" KeyState.available]
    currentIndex := 0 }

/-! ### Basic lemmas about `updateAt` -/

theorem updateAt_length {α : Type} :
    ∀ (i : Nat) (f : α → α) (l : List α), (updateAt i f l).length = l.length
  | _, _, [] => by simp [updateAt]
  | 0, _, _ :: _ => rfl
  | i + 1, f, _ :: as => by simp [updateAt, updateAt_length i f as]

theorem updateAt_get?_self {α : Type} :
    ∀ (i : Nat) (f : α → α) (l : List α) (a : α),
      l[i]? = some a → (updateAt i f l)[i]? = some (f a)
  | _, _, [], _, h => by simp at h
  | 0, f, b :: _, a, h => by
      simp [List.get?] at h
      simp [updateAt, List.get?, h]
  | i + 1, f, b :: as, a, h => by
      simp [List.get?] at h
      simpa [updateAt, List.get?] using updateAt_get?_self i f as a h

theorem updateAt_get?_ne {α : Type} :
    ∀ (i j : Nat) (f : α → α) (l : List α),
      i ≠ j → (updateAt i f l)[j]? = l[j]?
  | _, _, _, [], _ => by simp [updateAt]
  | 0, 0, _, _ :: _, h => absurd rfl h
  | 0, j + 1, f, b :: as, _ => by simp [updateAt, List.get?]
  | i + 1, 0, f, b :: as, _ => by simp [updateAt, List.get?]
  | i + 1, j + 1, f, b :: as, h => by
      simpa [updateAt, List.get?] using
        updateAt_get?_ne i j f as (fun hij => h (by omega))

theorem updateAt_forall {α : Type} (p : α → Prop) :
    ∀ (i : Nat) (f : α → α) (l : List α),
      (∀ a ∈ l, p a) → (∀ a, p a → p (f a)) →
      ∀ a ∈ updateAt i f l, p a
  | _, _, [], _, _ => by simp [updateAt]
  | 0, f, b :: as, hl, hf => by
      intro a ha
      rcases List.mem_cons.mp ha with h | h
      · exact h ▸ hf b (hl b (List.mem_cons_self b as))
      · exact hl a (List.mem_cons_of_mem b h)
  | i + 1, f, b :: as, hl, hf => by
      intro a ha
      rcases List.mem_cons.mp ha with h | h
      · exact h ▸ hl b (List.mem_cons_self b as)
      · exact updateAt_forall p i f as (fun x hx => hl x (List.mem_cons_of_mem b hx)) hf a h

theorem countP_updateAt {α : Type} (p : α → Bool) :
    ∀ (i : Nat) (f : α → α) (l : List α) (a : α), l[i]? = some a →
      (updateAt i f l).countP p + (if p a then 1 else 0)
        = l.countP p + (if p (f a) then 1 else 0)
  | _, _, [], a, h => by simp at h
  | 0, f, b :: as, a, h => by
      simp [List.get?] at h
      subst h
      simp [updateAt, List.countP_cons]
      omega
  | i + 1, f, b :: as, a, h => by
      simp [List.get?] at h
      have := countP_updateAt p i f as a h
      simp [updateAt, List.countP_cons]
      omega

/-! ### Characterisation of the rotation scan -/

theorem scanLoop_false_not_avail (keys : List ApiKeyStatus) :
    ∀ (fuel idx : Nat), (scanLoop keys idx fuel).1 = false →
      ∀ t, 1 ≤ t → t ≤ fuel →
        statusAt keys ((idx + t) % keys.length) ≠ some KeyState.available := by
  intro fuel
  induction fuel with
  | zero => intro idx _ t h1 h2; exact absurd h2 (by omega)
  | succ n ih =>
    intro idx hfalse t h1 h2
    by_cases hav : statusAt keys ((idx + 1) % keys.length) = some KeyState.available
    · simp only [scanLoop] at hfalse
      rw [if_pos hav] at hfalse
      exact absurd hfalse (by simp)
    · simp only [scanLoop] at hfalse
      rw [if_neg hav] at hfalse
      rcases t with _ | t
      · exact absurd h1 (by omega)
      rcases t with _ | t'
      · simpa using hav
      · have h3 := ih ((idx + 1) % keys.length) hfalse (t' + 1) (by omega) (by omega)
        have he : ((idx + 1) % keys.length + (t' + 1)) % keys.length
            = (idx + (t' + 1 + 1)) % keys.length := by
          rw [Nat.mod_add_mod]
          congr 1
          omega
        rwa [he] at h3

theorem scanLoop_false_idx (keys : List ApiKeyStatus) :
    ∀ (fuel idx : Nat), idx < keys.length → (scanLoop keys idx fuel).1 = false →
      (scanLoop keys idx fuel).2 = (idx + fuel) % keys.length := by
  intro fuel
  induction fuel with
  | zero => intro idx hidx _; simp [scanLoop, Nat.mod_eq_of_lt hidx]
  | succ n ih =>
    intro idx hidx hfalse
    have hlen : 0 < keys.length := Nat.lt_of_le_of_lt (Nat.zero_le idx) hidx
    by_cases hav : statusAt keys ((idx + 1) % keys.length) = some KeyState.available
    · simp only [scanLoop] at hfalse
      rw [if_pos hav] at hfalse
      exact absurd hfalse (by simp)
    · simp only [scanLoop] at hfalse ⊢
      rw [if_neg hav] at hfalse ⊢
      have h3 := ih ((idx + 1) % keys.length) (Nat.mod_lt _ hlen) hfalse
      rw [h3, Nat.mod_add_mod]
      congr 1
      omega

theorem scanLoop_true_spec (keys : List ApiKeyStatus) :
    ∀ (fuel idx : Nat), (scanLoop keys idx fuel).1 = true →
      ∃ t, 1 ≤ t ∧ t ≤ fuel ∧
        (scanLoop keys idx fuel).2 = (idx + t) % keys.length ∧
        statusAt keys ((idx + t) % keys.length) = some KeyState.available ∧
        ∀ u, 1 ≤ u → u < t →
          statusAt keys ((idx + u) % keys.length) ≠ some KeyState.available := by
  intro fuel
  induction fuel with
  | zero => intro idx h; simp [scanLoop] at h
  | succ n ih =>
    intro idx htrue
    by_cases hav : statusAt keys ((idx + 1) % keys.length) = some KeyState.available
    · refine ⟨1, le_refl 1, by omega, ?_, by simpa using hav, ?_⟩
      · simp only [scanLoop]
        rw [if_pos hav]
      · intro u h1 h2
        exact absurd h2 (by omega)
    · simp only [scanLoop] at htrue
      rw [if_neg hav] at htrue
      obtain ⟨t, ht1, ht2, hidx, havail, hmin⟩ := ih ((idx + 1) % keys.length) htrue
      have harith : ∀ u : Nat, ((idx + 1) % keys.length + u) % keys.length
          = (idx + (u + 1)) % keys.length := by
        intro u
        rw [Nat.mod_add_mod]
        congr 1
        omega
      refine ⟨t + 1, by omega, by omega, ?_, ?_, ?_⟩
      · simp only [scanLoop]
        rw [if_neg hav]
        rw [hidx, harith t]
      · rw [← harith t]
        exact havail
      · intro u h1 h2
        rcases u with _ | u'
        · exact absurd h1 (by omega)
        rcases u' with _ | u''
        · simpa using hav
        · have h3 := hmin (u'' + 1) (by omega) (by omega)
          rwa [harith (u'' + 1)] at h3

/-- Every index of the pool is reached within one full wrap of the
circular scan: index `k` is `(idx + t) % len` for some step `1 ≤ t ≤ len`. -/
theorem stepToIndex (len idx k : Nat) (hidx : idx < len) (hk : k < len) :
    ∃ t, 1 ≤ t ∧ t ≤ len ∧ (idx + t) % len = k := by
  by_cases hek : k = idx
  · refine ⟨len, by omega, le_refl len, ?_⟩
    subst hek
    rw [Nat.add_mod_right]
    exact Nat.mod_eq_of_lt hk
  · by_cases hlt : idx < k
    · refine ⟨k - idx, by omega, by omega, ?_⟩
      have he : idx + (k - idx) = k := by omega
      rw [he]
      exact Nat.mod_eq_of_lt hk
    · refine ⟨k + len - idx, by omega, by omega, ?_⟩
      have he : idx + (k + len - idx) = k + len := by omega
      rw [he, Nat.add_mod_right]
      exact Nat.mod_eq_of_lt hk

theorem scanLoop_full_finds (keys : List ApiKeyStatus) (idx : Nat)
    (hidx : idx < keys.length) (j : Nat) (hj : j < keys.length)
    (hav : statusAt keys j = some KeyState.available) :
    (scanLoop keys idx keys.length).1 = true := by
  rcases Bool.eq_false_or_eq_true (scanLoop keys idx keys.length).1 with h | h
  · exact h
  · exfalso
    obtain ⟨t, ht1, ht2, hteq⟩ := stepToIndex keys.length idx j hidx hj
    exact scanLoop_false_not_avail keys keys.length idx h t ht1 ht2 (hteq ▸ hav)

theorem markExhaustedAndRotate_keys (m : ApiKeyManager) :
    (markExhaustedAndRotate m).2.keys = updateAt m.currentIndex
      (fun k => { k with status := KeyState.exhausted
                         errorMessage := some exhaustedMsg }) m.keys := rfl

theorem markExhaustedAndRotate_fst (m : ApiKeyManager) :
    (markExhaustedAndRotate m).1
      = (scanLoop (markExhaustedAndRotate m).2.keys m.currentIndex
          (markExhaustedAndRotate m).2.keys.length).1 := rfl

theorem markExhaustedAndRotate_idx (m : ApiKeyManager) :
    (markExhaustedAndRotate m).2.currentIndex
      = (scanLoop (markExhaustedAndRotate m).2.keys m.currentIndex
          (markExhaustedAndRotate m).2.keys.length).2 := rfl

/-- C1: `markExhaustedAndRotate` marks the cursor entry `exhausted` with
the fixed diagnostic, then scans forward circularly from the next index,
wrapping at most once around the pool, for the first `available` entry:
if one exists the cursor moves to the earliest such index strictly after
the start (in circular order, skipping every non-`available` entry exactly
once) and the call returns `true`; otherwise the cursor is left unchanged
and the call returns `false`.  The selected entry is `available` (hence
never `active`, `exhausted` or `error`) and is never the starting entry. -/
theorem markExhaustedAndRotate_correct (m : ApiKeyManager)
    (hidx : m.currentIndex < m.keys.length) :
    statusAt (markExhaustedAndRotate m).2.keys m.currentIndex = some KeyState.exhausted ∧
    ((markExhaustedAndRotate m).2.keys[m.currentIndex]?).map (·.errorMessage)
        = some (some exhaustedMsg) ∧
    (markExhaustedAndRotate m).2.keys.length = m.keys.length ∧
    ((markExhaustedAndRotate m).1 = true →
      (markExhaustedAndRotate m).2.currentIndex < m.keys.length ∧
      (markExhaustedAndRotate m).2.currentIndex ≠ m.currentIndex ∧
      statusAt (markExhaustedAndRotate m).2.keys (markExhaustedAndRotate m).2.currentIndex
          = some KeyState.available ∧
      ∃ t, 1 ≤ t ∧ t ≤ m.keys.length ∧
        (markExhaustedAndRotate m).2.currentIndex = (m.currentIndex + t) % m.keys.length ∧
        ∀ u, 1 ≤ u → u < t →
          statusAt (markExhaustedAndRotate m).2.keys ((m.currentIndex + u) % m.keys.length)
              ≠ some KeyState.available) ∧
    ((markExhaustedAndRotate m).1 = false →
      (markExhaustedAndRotate m).2.currentIndex = m.currentIndex ∧
      ∀ j, j < m.keys.length →
        statusAt (markExhaustedAndRotate m).2.keys j ≠ some KeyState.available) ∧
    ((markExhaustedAndRotate m).1 = true ↔
      ∃ j, j < m.keys.length ∧
        statusAt (markExhaustedAndRotate m).2.keys j = some KeyState.available) := by
  have ha : m.keys[m.currentIndex]? = some m.keys[m.currentIndex] :=
    List.getElem?_eq_getElem hidx
  have hlen : (markExhaustedAndRotate m).2.keys.length = m.keys.length := by
    rw [markExhaustedAndRotate_keys]
    exact updateAt_length _ _ _
  have hidx' : m.currentIndex < (markExhaustedAndRotate m).2.keys.length := by
    rw [hlen]; exact hidx
  have hcursor : (markExhaustedAndRotate m).2.keys[m.currentIndex]?
      = some { m.keys[m.currentIndex] with status := KeyState.exhausted
                                           errorMessage := some exhaustedMsg } := by
    rw [markExhaustedAndRotate_keys]
    exact updateAt_get?_self _ _ _ _ ha
  have hst : statusAt (markExhaustedAndRotate m).2.keys m.currentIndex
      = some KeyState.exhausted := by
    rw [statusAt, hcursor]
    rfl
  refine ⟨hst, by rw [hcursor]; rfl, hlen, ?_, ?_, ?_⟩
  · intro h
    rw [markExhaustedAndRotate_fst] at h
    obtain ⟨t, ht1, ht2, hto, havail, hmin⟩ :=
      scanLoop_true_spec (markExhaustedAndRotate m).2.keys
        (markExhaustedAndRotate m).2.keys.length m.currentIndex h
    rw [← markExhaustedAndRotate_idx] at hto
    rw [hlen] at ht2 hto havail hmin
    have hlt : (markExhaustedAndRotate m).2.currentIndex < m.keys.length := by
      rw [hto]
      exact Nat.mod_lt _ (by omega)
    refine ⟨hlt, ?_, hto ▸ havail, t, ht1, ht2, hto, hmin⟩
    intro heq
    rw [heq] at hto
    rw [← hto] at havail
    rw [hst] at havail
    exact absurd (Option.some.inj havail) (by intro hx; cases hx)
  · intro h
    rw [markExhaustedAndRotate_fst] at h
    constructor
    · rw [markExhaustedAndRotate_idx]
      rw [scanLoop_false_idx _ _ _ hidx' h, Nat.add_mod_right]
      exact Nat.mod_eq_of_lt hidx'
    · intro j hj
      obtain ⟨t, ht1, ht2, hteq⟩ :=
        stepToIndex (markExhaustedAndRotate m).2.keys.length m.currentIndex j hidx'
          (by rw [hlen]; exact hj)
      have h3 := scanLoop_false_not_avail (markExhaustedAndRotate m).2.keys
        (markExhaustedAndRotate m).2.keys.length m.currentIndex h t ht1 ht2
      rwa [hteq] at h3
  · constructor
    · intro h
      rw [markExhaustedAndRotate_fst] at h
      obtain ⟨t, ht1, ht2, hto, havail, hmin⟩ :=
        scanLoop_true_spec (markExhaustedAndRotate m).2.keys
          (markExhaustedAndRotate m).2.keys.length m.currentIndex h
      refine ⟨(m.currentIndex + t) % (markExhaustedAndRotate m).2.keys.length, ?_, havail⟩
      rw [hlen] at ht2 ⊢
      exact Nat.mod_lt _ (by omega)
    · intro hex
      obtain ⟨j, hj, havail⟩ := hex
      rw [markExhaustedAndRotate_fst]
      exact scanLoop_full_finds _ _ hidx' j (by rw [hlen]; exact hj) havail

/-- Witness for C1 at a concrete pool: the scan from index 0 of
`pool3` succeeds exactly when some entry of the marked pool is
`available`. -/
theorem markExhaustedAndRotate_correct_witness :
    pool3.currentIndex < pool3.keys.length ∧
    ((markExhaustedAndRotate pool3).1 = true ↔
      ∃ j, j < pool3.keys.length ∧
        statusAt (markExhaustedAndRotate pool3).2.keys j = some KeyState.available) :=
  ⟨by decide, (markExhaustedAndRotate_correct pool3 (by decide)).2.2.2.2.2⟩

/-! ### Exhausting the whole pool (C2) -/

/-- Number of `available` entries. -/
def availCount (m : ApiKeyManager) : Nat :=
  m.keys.countP (fun k => k.status == KeyState.available)

/-- Every entry carries today's reset date (so the lazy daily reset is a
no-op). -/
def allToday (today : String) (m : ApiKeyManager) : Prop :=
  ∀ k ∈ m.keys, k.lastResetDate = today

instance (today : String) (m : ApiKeyManager) : Decidable (allToday today m) :=
  List.decidableBAll _ m.keys

/-- Iterate `n` successive calls of `markExhaustedAndRotate`, collecting the
returned Booleans. -/
def rotateCalls : Nat → ApiKeyManager → List Bool × ApiKeyManager
  | 0, m => ([], m)
  | n + 1, m =>
    let r := markExhaustedAndRotate m
    let rest := rotateCalls n r.2
    (r.1 :: rest.1, rest.2)

theorem rotateCalls_succ (n : Nat) (m : ApiKeyManager) :
    rotateCalls (n + 1) m
      = ((markExhaustedAndRotate m).1 :: (rotateCalls n (markExhaustedAndRotate m).2).1,
         (rotateCalls n (markExhaustedAndRotate m).2).2) := rfl

theorem allToday_rotate (today : String) (m : ApiKeyManager)
    (h : allToday today m) : allToday today (markExhaustedAndRotate m).2 := by
  intro k hk
  rw [markExhaustedAndRotate_keys] at hk
  exact updateAt_forall (fun (k : ApiKeyStatus) => k.lastResetDate = today)
    m.currentIndex
    (fun k => { k with status := KeyState.exhausted
                       errorMessage := some exhaustedMsg })
    m.keys h (fun a ha => ha) k hk

theorem checkDailyReset_of_allToday (today : String) (m : ApiKeyManager)
    (h : allToday today m) : checkDailyReset today m = m := by
  rw [checkDailyReset]
  have : m.keys.map (resetKey today) = m.keys := by
    rw [List.map_congr_left (g := id) (fun a ha => by simp [resetKey, h a ha])]
    exact List.map_id m.keys
  rw [this]

theorem hasAvailableKey_false_iff (today : String) (m : ApiKeyManager)
    (h : allToday today m) :
    (hasAvailableKey today m).1 = false ↔ availCount m = 0 := by
  rw [hasAvailableKey, checkDailyReset_of_allToday today m h, availCount]
  constructor
  · intro hfalse
    rw [List.countP_eq_zero]
    intro a ha
    have := List.any_eq_false.mp hfalse a ha
    simpa using this
  · intro hzero
    rw [List.any_eq_false]
    intro a ha
    have := List.countP_eq_zero.mp hzero a ha
    simpa using this

/-- One rotation from an `available` cursor: the available count drops by
one; with at least two available entries the call succeeds and lands on an
`available` cursor; with exactly one available entry the call fails. -/
theorem rotate_step (m : ApiKeyManager)
    (hidx : m.currentIndex < m.keys.length)
    (hcur : statusAt m.keys m.currentIndex = some KeyState.available) :
    availCount (markExhaustedAndRotate m).2 + 1 = availCount m ∧
    (2 ≤ availCount m →
      (markExhaustedAndRotate m).1 = true ∧
      (markExhaustedAndRotate m).2.currentIndex < (markExhaustedAndRotate m).2.keys.length ∧
      statusAt (markExhaustedAndRotate m).2.keys (markExhaustedAndRotate m).2.currentIndex
        = some KeyState.available) ∧
    (availCount m = 1 → (markExhaustedAndRotate m).1 = false) := by
  have ha : m.keys[m.currentIndex]? = some m.keys[m.currentIndex] :=
    List.getElem?_eq_getElem hidx
  have hasta : m.keys[m.currentIndex].status = KeyState.available := by
    rw [statusAt, ha] at hcur
    simpa using hcur
  have hlen : (markExhaustedAndRotate m).2.keys.length = m.keys.length := by
    rw [markExhaustedAndRotate_keys]
    exact updateAt_length _ _ _
  have hidx' : m.currentIndex < (markExhaustedAndRotate m).2.keys.length := by
    rw [hlen]; exact hidx
  have hcount : availCount (markExhaustedAndRotate m).2 + 1 = availCount m := by
    rw [availCount, availCount, markExhaustedAndRotate_keys]
    have := countP_updateAt (fun k => k.status == KeyState.available)
      m.currentIndex
      (fun k => { k with status := KeyState.exhausted
                         errorMessage := some exhaustedMsg })
      m.keys m.keys[m.currentIndex] ha
    simp [hasta] at this
    omega
  refine ⟨hcount, ?_, ?_⟩
  · intro h2
    have hpos : 0 < availCount (markExhaustedAndRotate m).2 := by omega
    rw [availCount, List.countP_pos] at hpos
    obtain ⟨b, hb, hbav⟩ := hpos
    obtain ⟨j, hj⟩ := List.mem_iff_get?.mp hb
    rw [List.get?_eq_getElem?] at hj
    have hjlt : j < (markExhaustedAndRotate m).2.keys.length := by
      by_contra hge
      rw [List.getElem?_eq_none (by omega)] at hj
      cases hj
    have hjav : statusAt (markExhaustedAndRotate m).2.keys j = some KeyState.available := by
      rw [statusAt, hj]
      simpa using hbav
    have htrue : (markExhaustedAndRotate m).1 = true := by
      rw [markExhaustedAndRotate_fst]
      exact scanLoop_full_finds _ _ hidx' j hjlt hjav
    refine ⟨htrue, ?_, ?_⟩
    · rw [markExhaustedAndRotate_fst] at htrue
      obtain ⟨t, ht1, ht2, hto, havail, hmin⟩ :=
        scanLoop_true_spec (markExhaustedAndRotate m).2.keys
          (markExhaustedAndRotate m).2.keys.length m.currentIndex htrue
      rw [markExhaustedAndRotate_idx, hto]
      exact Nat.mod_lt _ (by omega)
    · rw [markExhaustedAndRotate_fst] at htrue
      obtain ⟨t, ht1, ht2, hto, havail, hmin⟩ :=
        scanLoop_true_spec (markExhaustedAndRotate m).2.keys
          (markExhaustedAndRotate m).2.keys.length m.currentIndex htrue
      rw [markExhaustedAndRotate_idx, hto]
      exact havail
  · intro h1
    have hzero : availCount (markExhaustedAndRotate m).2 = 0 := by omega
    rcases Bool.eq_false_or_eq_true (markExhaustedAndRotate m).1 with hb | hb
    · exfalso
      rw [markExhaustedAndRotate_fst] at hb
      obtain ⟨t, ht1, ht2, hto, havail, hmin⟩ :=
        scanLoop_true_spec (markExhaustedAndRotate m).2.keys
          (markExhaustedAndRotate m).2.keys.length m.currentIndex hb
      rw [statusAt] at havail
      obtain ⟨b, hb?, hbst⟩ : ∃ b,
          (markExhaustedAndRotate m).2.keys[(m.currentIndex + t) %
            (markExhaustedAndRotate m).2.keys.length]? = some b
            ∧ b.status = KeyState.available := by
        cases hx : (markExhaustedAndRotate m).2.keys[(m.currentIndex + t) %
            (markExhaustedAndRotate m).2.keys.length]? with
        | none => rw [hx] at havail; cases havail
        | some b =>
          rw [hx] at havail
          exact ⟨b, rfl, by simpa using havail⟩
      have hbmem : b ∈ (markExhaustedAndRotate m).2.keys := by
        rw [← List.get?_eq_getElem?] at hb?
        exact List.get?_mem hb?
      have := List.countP_eq_zero.mp hzero b hbmem
      simp [hbst] at this
    · exact hb

/-- C2 (amended): from a pool whose cursor entry is `available` and which
has `n + 1` available entries in all, `n + 1` successive calls of
`markExhaustedAndRotate` return `true` `n` times and then `false`, after
which `hasAvailableKey` is `false`. -/
theorem rotateCalls_exhausts (today : String) :
    ∀ (n : Nat) (m : ApiKeyManager),
      allToday today m →
      m.currentIndex < m.keys.length →
      statusAt m.keys m.currentIndex = some KeyState.available →
      availCount m = n + 1 →
      (rotateCalls (n + 1) m).1 = List.replicate n true ++ [false] ∧
      (hasAvailableKey today (rotateCalls (n + 1) m).2).1 = false := by
  intro n
  induction n with
  | zero =>
    intro m htoday hidx hcur hav
    obtain ⟨hcount, _, hfail⟩ := rotate_step m hidx hcur
    have hfl := hfail hav
    constructor
    · rw [rotateCalls_succ, hfl]
      rfl
    · show (hasAvailableKey today (markExhaustedAndRotate m).2).1 = false
      rw [hasAvailableKey_false_iff today _ (allToday_rotate today m htoday)]
      omega
  | succ n ih =>
    intro m htoday hidx hcur hav
    obtain ⟨hcount, hstep, _⟩ := rotate_step m hidx hcur
    obtain ⟨htrue, hidx2, hcur2⟩ := hstep (by omega)
    have hrest := ih (markExhaustedAndRotate m).2
      (allToday_rotate today m htoday) hidx2 hcur2 (by omega)
    constructor
    · rw [rotateCalls_succ, htrue, hrest.1, List.replicate_succ]
      rfl
    · exact hrest.2

/-- Witness for the amended C2 on the concrete two-credential pool. -/
theorem rotateCalls_exhausts_witness :
    (allToday "2026-01-01" pool2 ∧ pool2.currentIndex < pool2.keys.length ∧
      statusAt pool2.keys pool2.currentIndex = some KeyState.available ∧
      availCount pool2 = 2) ∧
    (rotateCalls 2 pool2).1 = List.replicate 1 true ++ [false] ∧
    (hasAvailableKey "2026-01-01" (rotateCalls 2 pool2).2).1 = false :=
  ⟨⟨by decide, by decide, by decide, by decide⟩,
    rotateCalls_exhausts "2026-01-01" 1 pool2 (by decide) (by decide) (by decide) (by decide)⟩

/-- C2 as stated fails on the code: with `N = 2` available credentials,
the budget of `N − 1 = 1` call does not reach `false` — the single call
returns `true` and a key is still available afterwards. -/
theorem rotate_two_pool_one_call_not_false :
    availCount pool2 = 2 ∧
    (markExhaustedAndRotate pool2).1 = true ∧
    (hasAvailableKey "2026-01-01" (markExhaustedAndRotate pool2).2).1 = true := by
  refine ⟨by decide, by decide, by decide⟩

/-! ### Unsubscription (C3) -/

/-- C3 counterexample: two separate subscriptions registering the
identical callback value (the same function reference, id 7); invoking
one unsubscribe handle removes both entries, so the other subscription is
no longer registered and receives no notification. -/
theorem unsubscribe_removes_aliased_subscription :
    runUnsubscribe (subscribe (subscribe [] 7) 7) 7 = [] ∧
    notifyDeliveries (runUnsubscribe (subscribe (subscribe [] 7) 7) 7) pool2.keys = [] := by
  exact ⟨rfl, rfl⟩

/-- C3 (amended): an unsubscribe handle removes every registered
occurrence of its callback value and touches no other callback; in
particular when the callback value is registered exactly once, it removes
exactly that subscription. -/
theorem unsubscribe_removes_by_value (pre post : List Nat) (c : Nat)
    (hpre : c ∉ pre) (hpost : c ∉ post) :
    runUnsubscribe (pre ++ c :: post) c = pre ++ post ∧
    (∀ d, d ≠ c →
      (runUnsubscribe (pre ++ c :: post) c).count d = (pre ++ c :: post).count d) ∧
    (runUnsubscribe (pre ++ c :: post) c).count c = 0 := by
  have hfil : runUnsubscribe (pre ++ c :: post) c = pre ++ post := by
    rw [runUnsubscribe, List.filter_append]
    have h1 : pre.filter (fun l => l != c) = pre := by
      rw [List.filter_eq_self]
      intro a ha
      have hne : a ≠ c := fun he => hpre (he ▸ ha)
      simpa using hne
    have h2 : (c :: post).filter (fun l => l != c) = post := by
      rw [List.filter_cons]
      simp only [bne_self_eq_false]
      rw [if_neg (by simp), List.filter_eq_self.mpr]
      intro a ha
      have hne : a ≠ c := fun he => hpost (he ▸ ha)
      simpa using hne
    rw [h1, h2]
  refine ⟨hfil, ?_, ?_⟩
  · intro d hd
    rw [hfil, List.count_append, List.count_append, List.count_cons]
    have hne : ¬ d = c := hd
    have hne2 : ¬ c = d := fun h => hd h.symm
    simp [hne, hne2]
  · rw [hfil, List.count_append]
    rw [List.count_eq_zero.mpr hpre, List.count_eq_zero.mpr hpost]

/-- Witness for the amended C3: listener list `[1, 7, 2]`, removing `7`. -/
theorem unsubscribe_removes_by_value_witness :
    ((7 : Nat) ∉ [1] ∧ (7 : Nat) ∉ [2]) ∧
    (runUnsubscribe ([1] ++ 7 :: [2]) 7 = [1] ++ [2] ∧
      (∀ d, d ≠ 7 →
        (runUnsubscribe ([1] ++ 7 :: [2]) 7).count d = ([1] ++ 7 :: [2]).count d) ∧
      (runUnsubscribe ([1] ++ 7 :: [2]) 7).count 7 = 0) :=
  ⟨⟨by decide, by decide⟩,
    unsubscribe_removes_by_value [1] [2] 7 (by decide) (by decide)⟩

/-! ### Shallow snapshots (C4) -/

/-- A two-credential reference pool: two records on the heap, the pool's
array holding references to them. -/
def refPool0 : RefPool :=
  { heap := [entry "k1" KeyState.available, entry "k2" KeyState.available]
    keyRefs := [0, 1]
    currentIndex := 0 }

/-- C4 counterexample: a caller mutates element 0 of the snapshot it was
handed (`snap[0].status = 'exhausted'` in JavaScript); the pool's internal
view of its credentials changes, so the snapshot is not a defensive copy
against element mutation. -/
theorem snapshot_element_mutation_leaks :
    (heapWrite refPool0 ((snapshotRefs refPool0).headD 0)
        (entry "k1" KeyState.exhausted)).keyRefs = refPool0.keyRefs ∧
    derefAll (heapWrite refPool0 ((snapshotRefs refPool0).headD 0)
        (entry "k1" KeyState.exhausted)) ≠ derefAll refPool0 := by
  exact ⟨rfl, by decide⟩

/-- C4 (amended): the snapshot handed to readers and subscribers is a
fresh array but only a shallow copy: its elements are the pool's own
credential records, so while replacing slots of the caller's array cannot
touch the pool's `keyRefs` or cursor, mutating a record reached through
any snapshot element is visible in the pool's internal state at every
position holding that reference. -/
theorem snapshot_is_shallow (s : RefPool) (r : Nat) (v : ApiKeyStatus)
    (hr : r ∈ snapshotRefs s) (hlt : r < s.heap.length) :
    snapshotRefs s = s.keyRefs ∧
    (heapWrite s r v).keyRefs = s.keyRefs ∧
    (heapWrite s r v).currentIndex = s.currentIndex ∧
    derefAll (heapWrite s r v)
      = s.keyRefs.map (fun r2 => if r2 = r then some v else s.heap[r2]?) := by
  refine ⟨rfl, rfl, rfl, ?_⟩
  rw [derefAll]
  refine List.map_congr_left ?_
  intro r2 _
  by_cases he : r2 = r
  · subst he
    rw [if_pos rfl]
    show (updateAt r2 (fun _ => v) s.heap)[r2]? = some v
    rw [updateAt_get?_self r2 (fun _ => v) s.heap s.heap[r2] (List.getElem?_eq_getElem hlt)]
  · rw [if_neg he]
    show (updateAt r (fun _ => v) s.heap)[r2]? = s.heap[r2]?
    exact updateAt_get?_ne r r2 _ s.heap (fun h => he h.symm)

/-- Witness for the amended C4 on the concrete reference pool. -/
theorem snapshot_is_shallow_witness :
    ((0 : Nat) ∈ snapshotRefs refPool0 ∧ 0 < refPool0.heap.length) ∧
    (snapshotRefs refPool0 = refPool0.keyRefs ∧
      (heapWrite refPool0 0 (entry "k1" KeyState.exhausted)).keyRefs = refPool0.keyRefs ∧
      (heapWrite refPool0 0 (entry "k1" KeyState.exhausted)).currentIndex
        = refPool0.currentIndex ∧
      derefAll (heapWrite refPool0 0 (entry "k1" KeyState.exhausted))
        = refPool0.keyRefs.map (fun r2 =>
            if r2 = 0 then some (entry "k1" KeyState.exhausted)
            else refPool0.heap[r2]?)) :=
  ⟨⟨by decide, by decide⟩,
    snapshot_is_shallow refPool0 0 (entry "k1" KeyState.exhausted) (by decide) (by decide)⟩

/-! ### Bounded stored diagnostics (C5) -/

/-- A 51-character diagnostic. -/
def longDiag : String := String.mk (List.replicate 51 'x')

/-- C5 counterexample: `markError` stores a 51-character diagnostic
verbatim — the truncation the claim attributes to `markError` does not
happen there, so the stored error text exceeds the 50-character bound. -/
theorem markError_stores_verbatim :
    statusAt (markError longDiag pool1).keys 0 = some KeyState.error ∧
    ((markError longDiag pool1).keys[0]?).map (·.errorMessage)
        = some (some longDiag) ∧
    50 < longDiag.length := by
  exact ⟨by decide, by decide, by decide⟩

theorem strTruncate_length_le (s : String) (n : Nat) :
    (strTruncate s n).length ≤ n := by
  show (s.data.take n).length ≤ n
  rw [List.length_take]
  exact Nat.min_le_left _ _

/-- Stored diagnostic within the 50-character bound. -/
def errLenOk (k : ApiKeyStatus) : Bool :=
  match k.errorMessage with
  | none => true
  | some e => decide (e.length ≤ 50)

theorem errLenOk_checkDailyReset (today : String) (m : ApiKeyManager)
    (hm : ∀ k ∈ m.keys, errLenOk k = true) :
    ∀ k ∈ (checkDailyReset today m).keys, errLenOk k = true := by
  intro k hk
  rw [checkDailyReset] at hk
  obtain ⟨a, ha, rfl⟩ := List.mem_map.mp hk
  by_cases hd : a.lastResetDate ≠ today
  · simp [resetKey, hd, errLenOk]
  · simp only [resetKey, if_neg hd]
    exact hm a ha

theorem errLenOk_updateAt (i : Nat) (f : ApiKeyStatus → ApiKeyStatus)
    (l : List ApiKeyStatus)
    (hl : ∀ k ∈ l, errLenOk k = true)
    (hf : ∀ a, errLenOk a = true → errLenOk (f a) = true) :
    ∀ k ∈ updateAt i f l, errLenOk k = true :=
  updateAt_forall (fun k => errLenOk k = true) i f l hl hf


/-! ### Unfolding equations for the dispatcher -/

theorem markAsActive_keys (now : Nat) (m : ApiKeyManager) :
    (markAsActive now m).keys = updateAt m.currentIndex
      (fun k => { k with status := KeyState.active, lastUsed := some now }) m.keys := rfl

theorem markSuccess_keys (now : Nat) (m : ApiKeyManager) :
    (markSuccess now m).keys = updateAt m.currentIndex
      (fun k => { k with status := KeyState.available
                         requestCount := k.requestCount + 1
                         lastUsed := some now }) m.keys := rfl

theorem markError_keys (e : String) (m : ApiKeyManager) :
    (markError e m).keys = updateAt m.currentIndex
      (fun k => { k with status := KeyState.error
                         errorMessage := some e }) m.keys := rfl

theorem executeWithRetry_zero {T : Type} (today : String) (now : Nat)
    (op : Nat → String → OpOutcome T) (calls : Nat) (m : ApiKeyManager) :
    executeWithRetry today now op calls 0 m
      = (Except.error DispatchError.tooManyFailures, m, calls) := rfl

theorem executeWithRetry_succ {T : Type} (today : String) (now : Nat)
    (op : Nat → String → OpOutcome T) (calls fuel : Nat) (m : ApiKeyManager) :
    executeWithRetry today now op calls (fuel + 1) m =
      if !(hasAvailableKey today m).1 then
        (Except.error (DispatchError.allKeysExhausted noKeysMsg),
          (hasAvailableKey today m).2, calls)
      else
        match op calls
            (getCurrentKey today (markAsActive now (hasAvailableKey today m).2)).1 with
        | OpOutcome.success v =>
          (Except.ok v,
            markSuccess now
              (getCurrentKey today (markAsActive now (hasAvailableKey today m).2)).2,
            calls + 1)
        | OpOutcome.failure status msg =>
          if isRateLimitHit status msg then
            if !(markExhaustedAndRotate
                (getCurrentKey today (markAsActive now (hasAvailableKey today m).2)).2).1 then
              (Except.error (DispatchError.allKeysExhausted rotationFailedMsg),
                (markExhaustedAndRotate
                  (getCurrentKey today (markAsActive now (hasAvailableKey today m).2)).2).2,
                calls + 1)
            else
              executeWithRetry today now op (calls + 1) fuel
                (markExhaustedAndRotate
                  (getCurrentKey today (markAsActive now (hasAvailableKey today m).2)).2).2
          else if isNotFoundHit status msg then
            (Except.error (DispatchError.notFoundError (notFoundUserMsg msg)),
              markError invalidKeyMsg
                (getCurrentKey today (markAsActive now (hasAvailableKey today m).2)).2,
              calls + 1)
          else
            (Except.error (DispatchError.otherError status msg),
              markError (strTruncate msg 50)
                (getCurrentKey today (markAsActive now (hasAvailableKey today m).2)).2,
              calls + 1) := rfl

theorem errLenOk_rotate (m : ApiKeyManager)
    (hm : ∀ k ∈ m.keys, errLenOk k = true) :
    ∀ k ∈ (markExhaustedAndRotate m).2.keys, errLenOk k = true := by
  intro k hk
  rw [markExhaustedAndRotate_keys] at hk
  refine errLenOk_updateAt _ _ _ hm ?_ k hk
  intro a _
  rfl

theorem errLenOk_markError (msgv : String) (hmsg : msgv.length ≤ 50)
    (m : ApiKeyManager) (hm : ∀ k ∈ m.keys, errLenOk k = true) :
    ∀ k ∈ (markError msgv m).keys, errLenOk k = true := by
  intro k hk
  rw [markError_keys] at hk
  refine errLenOk_updateAt _ _ _ hm ?_ k hk
  intro a _
  simp [errLenOk, hmsg]

/-- C5 (amended): `markError` itself stores its argument verbatim (see the
counterexample), but every diagnostic the dispatcher causes to be stored
is bounded by 50 characters: the generic catch path truncates with
`substring(0, 50)` before calling `markError`, the 404 path passes a fixed
short text, rotation stores a fixed short text, and the daily reset only
clears diagnostics.  So a dispatch through `executeWithRetry` preserves
the bound on all stored error texts. -/
theorem executeWithRetry_err_bounded {T : Type} (today : String) (now : Nat)
    (op : Nat → String → OpOutcome T) :
    ∀ (fuel calls : Nat) (m : ApiKeyManager),
      (∀ k ∈ m.keys, errLenOk k = true) →
      ∀ k ∈ (executeWithRetry today now op calls fuel m).2.1.keys, errLenOk k = true := by
  intro fuel
  induction fuel with
  | zero =>
    intro calls m hm
    rw [executeWithRetry_zero]
    exact hm
  | succ n ih =>
    intro calls m hm
    have h1 : ∀ k ∈ (hasAvailableKey today m).2.keys, errLenOk k = true :=
      errLenOk_checkDailyReset today m hm
    have h2 : ∀ k ∈ (markAsActive now (hasAvailableKey today m).2).keys,
        errLenOk k = true := by
      intro k hk
      rw [markAsActive_keys] at hk
      refine errLenOk_updateAt _ _ _ h1 ?_ k hk
      exact fun a ha => ha
    have h3 : ∀ k ∈ (getCurrentKey today
        (markAsActive now (hasAvailableKey today m).2)).2.keys, errLenOk k = true :=
      errLenOk_checkDailyReset today _ h2
    rw [executeWithRetry_succ]
    split
    · exact h1
    · split
      · intro k hk
        rw [markSuccess_keys] at hk
        refine errLenOk_updateAt _ _ _ h3 ?_ k hk
        exact fun a ha => ha
      · split
        · split
          · exact errLenOk_rotate _ h3
          · exact ih (calls + 1) _ (errLenOk_rotate _ h3)
        · split
          · exact errLenOk_markError invalidKeyMsg (by decide) _ h3
          · exact errLenOk_markError _ (strTruncate_length_le _ 50) _ h3

/-- Witness for the amended C5: a dispatch whose unit of work raises a
generic error with a 51-character message leaves only bounded stored
diagnostics. -/
theorem executeWithRetry_err_bounded_witness :
    (∀ k ∈ pool1.keys, errLenOk k = true) ∧
    (∀ k ∈ (executeWithRetry "2026-01-01" 3
        (fun _ _ => (OpOutcome.failure none longDiag : OpOutcome Unit))
        0 3 pool1).2.1.keys, errLenOk k = true) :=
  ⟨by decide,
    executeWithRetry_err_bounded "2026-01-01" 3
      (fun _ _ => (OpOutcome.failure none longDiag : OpOutcome Unit))
      3 0 pool1 (by decide)⟩

/-! ### Concrete dispatch runs (C6, C7, C9) -/

/-- Dispatch against `pool2` with a unit of work that always raises a
rate-limit failure (`status 429`), budget 3. -/
def rateRun : Except DispatchError Unit × ApiKeyManager × Nat :=
  executeWithRetry "2026-01-01" 0
    (fun _ _ => OpOutcome.failure (some 429) "quota") 0 3 pool2

/-- Dispatch against `pool2` with a unit of work that raises a not-found
failure (`status 404`) on the first call, budget 3. -/
def nfRun : Except DispatchError Unit × ApiKeyManager × Nat :=
  executeWithRetry "2026-01-01" 0
    (fun _ _ => OpOutcome.failure (some 404) "nf") 0 3 pool2

/-- Dispatch against `pool1` with a unit of work that succeeds at once,
budget 3. -/
def okRun : Except DispatchError Nat × ApiKeyManager × Nat :=
  executeWithRetry "2026-01-01" 0
    (fun _ _ => OpOutcome.success 42) 0 3 pool1

/-- C6: with two available credentials and an always-rate-limited unit of
work under a budget of 3, the unit of work runs exactly twice (the first
rotation succeeds, the second fails) and the dispatch terminates with the
all-credentials-exhausted failure rather than spending the third attempt. -/
theorem dispatch_two_keys_rate_limited :
    rateRun.1 = Except.error (DispatchError.allKeysExhausted rotationFailedMsg) ∧
    rateRun.2.2 = 2 ∧
    statusAt rateRun.2.1.keys 0 = some KeyState.exhausted ∧
    statusAt rateRun.2.1.keys 1 = some KeyState.exhausted := by
  exact ⟨rfl, rfl, rfl, rfl⟩

/-- C7: with pool `["k1", "k2"]` both available, a not-found failure on the
first call marks `k1` `error` with the fixed diagnostic, fails the dispatch
immediately with the not-found kind after exactly one invocation, leaves
the cursor at index 0, and leaves `k2`'s entry untouched. -/
theorem dispatch_not_found_fails_immediately :
    nfRun.1 = Except.error (DispatchError.notFoundError (notFoundUserMsg "nf")) ∧
    nfRun.2.2 = 1 ∧
    nfRun.2.1.currentIndex = 0 ∧
    statusAt nfRun.2.1.keys 0 = some KeyState.error ∧
    (nfRun.2.1.keys[0]?).map (·.errorMessage) = some (some invalidKeyMsg) ∧
    nfRun.2.1.keys[1]? = pool2.keys[1]? ∧
    statusAt nfRun.2.1.keys 1 = some KeyState.available := by
  exact ⟨rfl, rfl, rfl, rfl, rfl, rfl, rfl⟩



/-! ### `markSuccess` and the cursor (C9) -/

theorem resetKey_key (today : String) (k : ApiKeyStatus) :
    (resetKey today k).key = k.key := by
  rw [resetKey]
  split <;> rfl

theorem getCurrentKey_fst (today : String) (m : ApiKeyManager) :
    (getCurrentKey today m).1
      = ((m.keys[m.currentIndex]?).map (·.key)).getD "" := by
  show (((checkDailyReset today m).keys[(checkDailyReset today m).currentIndex]?).map
      (·.key)).getD "" = ((m.keys[m.currentIndex]?).map (·.key)).getD ""
  have h1 : (checkDailyReset today m).currentIndex = m.currentIndex := rfl
  have h2 : (checkDailyReset today m).keys = m.keys.map (resetKey today) := rfl
  rw [h1, h2, List.getElem?_map, Option.map_map]
  have hfun : ((fun k : ApiKeyStatus => k.key) ∘ resetKey today)
      = (fun k : ApiKeyStatus => k.key) := by
    funext k
    exact resetKey_key today k
  rw [hfun]

/-- C9: `markSuccess` returns the cursor entry to `available`, increments
its request count, and leaves the cursor unchanged, so `getCurrentKey`
immediately after `markSuccess` yields the same secret as before; and a
one-credential pool whose unit of work succeeds at once ends `available`
with `requestCount = 1`, the result returned, one invocation made, and
the cursor never moved. -/
theorem markSuccess_then_same_key :
    (∀ (today : String) (now : Nat) (m : ApiKeyManager),
      m.currentIndex < m.keys.length →
      (markSuccess now m).currentIndex = m.currentIndex ∧
      statusAt (markSuccess now m).keys m.currentIndex = some KeyState.available ∧
      ((markSuccess now m).keys[m.currentIndex]?).map (·.requestCount)
        = (m.keys[m.currentIndex]?).map (fun k => k.requestCount + 1) ∧
      (getCurrentKey today (markSuccess now m)).1 = (getCurrentKey today m).1) ∧
    (okRun.1 = Except.ok 42 ∧ okRun.2.2 = 1 ∧ okRun.2.1.currentIndex = 0 ∧
      statusAt okRun.2.1.keys 0 = some KeyState.available ∧
      (okRun.2.1.keys[0]?).map (·.requestCount) = some 1) := by
  constructor
  · intro today now m hidx
    have ha : m.keys[m.currentIndex]? = some m.keys[m.currentIndex] :=
      List.getElem?_eq_getElem hidx
    have hset : (markSuccess now m).keys[m.currentIndex]?
        = some { m.keys[m.currentIndex] with
                   status := KeyState.available
                   requestCount := m.keys[m.currentIndex].requestCount + 1
                   lastUsed := some now } := by
      rw [markSuccess_keys]
      exact updateAt_get?_self _ _ _ _ ha
    refine ⟨rfl, ?_, ?_, ?_⟩
    · rw [statusAt, hset]
      rfl
    · rw [hset, ha]
      rfl
    · rw [getCurrentKey_fst, getCurrentKey_fst]
      have hci : (markSuccess now m).currentIndex = m.currentIndex := rfl
      rw [hci, hset, ha]
      rfl
  · exact ⟨rfl, rfl, rfl, rfl, rfl⟩

/-- Witness for C9 on the one-credential pool. -/
theorem markSuccess_then_same_key_witness :
    pool1.currentIndex < pool1.keys.length ∧
    ((markSuccess 0 pool1).currentIndex = pool1.currentIndex ∧
      statusAt (markSuccess 0 pool1).keys pool1.currentIndex = some KeyState.available ∧
      ((markSuccess 0 pool1).keys[pool1.currentIndex]?).map (·.requestCount)
        = (pool1.keys[pool1.currentIndex]?).map (fun k => k.requestCount + 1) ∧
      (getCurrentKey "2026-01-01" (markSuccess 0 pool1)).1
        = (getCurrentKey "2026-01-01" pool1).1) :=
  ⟨by decide, markSuccess_then_same_key.1 "2026-01-01" 0 pool1 (by decide)⟩

/-! ### Idempotence of the lazy daily reset (C8) -/

theorem resetKey_idem (today : String) (k : ApiKeyStatus) :
    resetKey today (resetKey today k) = resetKey today k := by
  by_cases hd : k.lastResetDate = today
  · simp [resetKey, hd]
  · simp [resetKey, hd]

theorem checkDailyReset_idem (today : String) (m : ApiKeyManager) :
    checkDailyReset today (checkDailyReset today m) = checkDailyReset today m := by
  simp only [checkDailyReset]
  congr 1
  rw [List.map_map]
  exact List.map_congr_left (fun a _ => resetKey_idem today a)

/-- C8: the lazy daily reset is idempotent — each read operation leaves the
state `checkDailyReset today m`, and re-reading on the same day changes
nothing further; and the reset transitions exactly the entries whose
`lastResetDate` differs from today back to `available` with zero count and
a cleared diagnostic, leaving entries already dated today untouched. -/
theorem lazy_reset_idempotent :
    (∀ (today : String) (m : ApiKeyManager),
      checkDailyReset today (checkDailyReset today m) = checkDailyReset today m ∧
      (getCurrentKey today m).2 = checkDailyReset today m ∧
      (hasAvailableKey today m).2 = checkDailyReset today m ∧
      (getKeyStatuses today m).2 = checkDailyReset today m ∧
      (getCurrentKey today (getCurrentKey today m).2).2 = (getCurrentKey today m).2 ∧
      (hasAvailableKey today (hasAvailableKey today m).2).2 = (hasAvailableKey today m).2 ∧
      (getKeyStatuses today (getKeyStatuses today m).2).2 = (getKeyStatuses today m).2) ∧
    (∀ (today : String) (m : ApiKeyManager) (i : Nat) (k : ApiKeyStatus),
      m.keys[i]? = some k →
      (k.lastResetDate ≠ today →
        (checkDailyReset today m).keys[i]?
          = some { k with status := KeyState.available
                          requestCount := 0
                          lastResetDate := today
                          errorMessage := none }) ∧
      (k.lastResetDate = today → (checkDailyReset today m).keys[i]? = some k)) := by
  constructor
  · intro today m
    refine ⟨checkDailyReset_idem today m, rfl, rfl, rfl, ?_, ?_, ?_⟩
    · show checkDailyReset today (checkDailyReset today m) = checkDailyReset today m
      exact checkDailyReset_idem today m
    · show checkDailyReset today (checkDailyReset today m) = checkDailyReset today m
      exact checkDailyReset_idem today m
    · show checkDailyReset today (checkDailyReset today m) = checkDailyReset today m
      exact checkDailyReset_idem today m
  · intro today m i k hk
    have hmap : (checkDailyReset today m).keys[i]? = some (resetKey today k) := by
      show (m.keys.map (resetKey today))[i]? = some (resetKey today k)
      rw [List.getElem?_map, hk]
      rfl
    constructor
    · intro hne
      rw [hmap]
      simp only [resetKey]
      rw [if_pos hne]
    · intro heq
      rw [hmap]
      simp only [resetKey]
      rw [if_neg (fun h2 => h2 heq)]

/-- An entry whose reset date is stale. -/
def staleEntry : ApiKeyStatus :=
  { key := "s", status := KeyState.exhausted, requestCount := 5,
    lastResetDate := "2025-12-31", lastUsed := some 1, errorMessage := some "old" }

/-- A pool holding only the stale entry. -/
def stalePool : ApiKeyManager := { keys := [staleEntry], currentIndex := 0 }

/-- Witness for C8: the stale entry of `stalePool` is reset to `available`
with zero count and a cleared diagnostic. -/
theorem lazy_reset_idempotent_witness :
    (stalePool.keys[0]? = some staleEntry ∧ staleEntry.lastResetDate ≠ "2026-01-01") ∧
    (checkDailyReset "2026-01-01" stalePool).keys[0]?
      = some { staleEntry with status := KeyState.available
                               requestCount := 0
                               lastResetDate := "2026-01-01"
                               errorMessage := none } :=
  ⟨⟨by decide, by decide⟩,
    (lazy_reset_idempotent.2 "2026-01-01" stalePool 0 staleEntry (by decide)).1 (by decide)⟩


/-! ### No credential left `active` (C10) -/

/-- No entry of the pool is in the `active` (in-use) state. -/
def noActiveKey (m : ApiKeyManager) : Prop :=
  ∀ k ∈ m.keys, k.status ≠ KeyState.active

instance (m : ApiKeyManager) : Decidable (noActiveKey m) :=
  List.decidableBAll _ m.keys

/-- Only the entry at index `i` may be `active`. -/
def activeOnlyAt (m : ApiKeyManager) (i : Nat) : Prop :=
  ∀ j k, m.keys[j]? = some k → k.status = KeyState.active → j = i

theorem resetKey_status_active (today : String) (k : ApiKeyStatus)
    (h : (resetKey today k).status = KeyState.active) :
    k.status = KeyState.active := by
  simp only [resetKey] at h
  split at h
  · simp at h
  · exact h

theorem noActive_checkDailyReset (today : String) (m : ApiKeyManager)
    (hm : noActiveKey m) : noActiveKey (checkDailyReset today m) := by
  intro k hk
  have hk2 : k ∈ m.keys.map (resetKey today) := hk
  obtain ⟨a, ha, rfl⟩ := List.mem_map.mp hk2
  intro hact
  exact hm a ha (resetKey_status_active today a hact)

theorem activeOnlyAt_checkDailyReset (today : String) (m : ApiKeyManager) (i : Nat)
    (hm : activeOnlyAt m i) : activeOnlyAt (checkDailyReset today m) i := by
  intro j k hk hact
  have hk2 : (m.keys.map (resetKey today))[j]? = some k := hk
  rw [List.getElem?_map] at hk2
  cases ha : m.keys[j]? with
  | none =>
    rw [ha] at hk2
    cases hk2
  | some a =>
    rw [ha] at hk2
    have hka : resetKey today a = k := Option.some.inj hk2
    refine hm j a ha (resetKey_status_active today a ?_)
    rw [hka]
    exact hact

theorem activeOnlyAt_markAsActive (now : Nat) (m : ApiKeyManager)
    (hm : noActiveKey m) :
    activeOnlyAt (markAsActive now m) m.currentIndex := by
  intro j k hk hact
  by_contra hne
  rw [markAsActive_keys] at hk
  rw [updateAt_get?_ne m.currentIndex j _ m.keys (fun h => hne h.symm)] at hk
  refine hm k (List.get?_mem (n := j) ?_) hact
  rw [List.get?_eq_getElem?]
  exact hk

theorem noActive_update (m : ApiKeyManager) (f : ApiKeyStatus → ApiKeyStatus)
    (honly : activeOnlyAt m m.currentIndex)
    (hf : ∀ a, (f a).status ≠ KeyState.active) :
    ∀ k ∈ updateAt m.currentIndex f m.keys, k.status ≠ KeyState.active := by
  intro k hk hact
  obtain ⟨j, hj⟩ := List.mem_iff_get?.mp hk
  rw [List.get?_eq_getElem?] at hj
  by_cases he : j = m.currentIndex
  · rw [he] at hj
    cases ha : m.keys[m.currentIndex]? with
    | none =>
      have hlen : m.keys.length ≤ m.currentIndex := List.getElem?_eq_none_iff.mp ha
      have hnone : (updateAt m.currentIndex f m.keys)[m.currentIndex]? = none := by
        apply List.getElem?_eq_none
        rw [updateAt_length]
        exact hlen
      rw [hnone] at hj
      cases hj
    | some a =>
      rw [updateAt_get?_self m.currentIndex f m.keys a ha] at hj
      have hk2 : f a = k := Option.some.inj hj
      refine hf a ?_
      rw [hk2]
      exact hact
  · rw [updateAt_get?_ne m.currentIndex j f m.keys (fun h => he h.symm)] at hj
    exact absurd (honly j k hj hact) he

/-- C10: a dispatch never leaves a credential in the `active` (in-use)
state: every `executeWithRetry` path that marks the cursor entry `active`
overwrites that entry via `markSuccess`, `markExhaustedAndRotate` or
`markError` before returning, throwing, or starting the next attempt, so a
pool with no `active` entries going in has none coming out, whatever the
outcome. -/
theorem executeWithRetry_no_active {T : Type} (today : String) (now : Nat)
    (op : Nat → String → OpOutcome T) :
    ∀ (fuel calls : Nat) (m : ApiKeyManager),
      noActiveKey m →
      noActiveKey (executeWithRetry today now op calls fuel m).2.1 := by
  intro fuel
  induction fuel with
  | zero =>
    intro calls m hm
    rw [executeWithRetry_zero]
    exact hm
  | succ n ih =>
    intro calls m hm
    have h1 : noActiveKey (hasAvailableKey today m).2 :=
      noActive_checkDailyReset today m hm
    have h2 : activeOnlyAt (markAsActive now (hasAvailableKey today m).2)
        (hasAvailableKey today m).2.currentIndex :=
      activeOnlyAt_markAsActive now _ h1
    have h3 : activeOnlyAt (getCurrentKey today
        (markAsActive now (hasAvailableKey today m).2)).2
        (getCurrentKey today (markAsActive now (hasAvailableKey today m).2)).2.currentIndex :=
      activeOnlyAt_checkDailyReset today
        (markAsActive now (hasAvailableKey today m).2)
        (hasAvailableKey today m).2.currentIndex h2
    rw [executeWithRetry_succ]
    split
    · exact h1
    · split
      · intro k hk
        rw [markSuccess_keys] at hk
        exact noActive_update _ _ h3 (fun a h => by simp at h) k hk
      · split
        · split
          · intro k hk
            rw [markExhaustedAndRotate_keys] at hk
            exact noActive_update _ _ h3 (fun a h => by simp at h) k hk
          · refine ih (calls + 1) _ ?_
            intro k hk
            rw [markExhaustedAndRotate_keys] at hk
            exact noActive_update _ _ h3 (fun a h => by simp at h) k hk
        · split
          · intro k hk
            rw [markError_keys] at hk
            exact noActive_update _ _ h3 (fun a h => by simp at h) k hk
          · intro k hk
            rw [markError_keys] at hk
            exact noActive_update _ _ h3 (fun a h => by simp at h) k hk

/-- Witness for C10: the always-rate-limited dispatch against `pool2`
leaves no entry `active`. -/
theorem executeWithRetry_no_active_witness :
    noActiveKey pool2 ∧ noActiveKey rateRun.2.1 :=
  ⟨by decide,
    executeWithRetry_no_active "2026-01-01" 0
      (fun _ _ => OpOutcome.failure (some 429) "quota") 3 0 pool2 (by decide)⟩

end ScholarFlow
